import Mathlib

/-!
Verification of the Notion standup extraction pipeline
(`src/get_standups.py`): paginated page query, recursive block-tree
flattening, and type-dispatched content extraction.

JSON values are modelled by the inductive `JVal`; Python dicts are ordered
association lists (insertion order, as Python preserves it).  A Python
expression that would raise (e.g. calling `.get` on a non-dict) is
modelled by `Option`, with `none` standing for a raised exception.
-/

/-- A JSON value as handled by the script.  Objects keep key order. -/
inductive JVal where
  | null : JVal
  | bool (b : Bool) : JVal
  | num (n : Int) : JVal
  | str (s : String) : JVal
  | arr (items : List JVal) : JVal
  | obj (fields : List (String × JVal)) : JVal
deriving Repr

-- Structural equality of JSON values (Python `==` on these shapes).
mutual
def JVal.beq : JVal → JVal → Bool
  | .null, .null => true
  | .bool a, .bool c => a == c
  | .num a, .num c => a == c
  | .str a, .str c => a == c
  | .arr xs, .arr ys => JVal.beqList xs ys
  | .obj xs, .obj ys => JVal.beqFields xs ys
  | _, _ => false

def JVal.beqList : List JVal → List JVal → Bool
  | [], [] => true
  | x :: xs, y :: ys => JVal.beq x y && JVal.beqList xs ys
  | _, _ => false

def JVal.beqFields : List (String × JVal) → List (String × JVal) → Bool
  | [], [] => true
  | (k, v) :: xs, (l, w) :: ys => k == l && JVal.beq v w && JVal.beqFields xs ys
  | _, _ => false
end

instance : BEq JVal := ⟨JVal.beq⟩

/-- A raw block (or raw page) as delivered by the API: a JSON object,
    i.e. an ordered field list. -/
abbrev RawBlock := List (String × JVal)

/-- Python `d[key]` lookup on an ordered dict (first matching key). -/
def jget (fields : List (String × JVal)) (key : String) : Option JVal :=
  (fields.find? (fun kv => kv.1 == key)).map (fun kv => kv.2)

/-- Python `v.get(key, dflt)`: succeeds only when `v` is a dict;
    on any non-dict value the attribute access raises (`none`). -/
def dictGet (v : JVal) (key : String) (dflt : JVal) : Option JVal :=
  match v with
  | .obj fields => some ((jget fields key).getD dflt)
  | _ => none

/-- Python truthiness of a JSON value. -/
def truthy : JVal → Bool
  | .null => false
  | .bool b => b
  | .num n => n != 0
  | .str s => !s.isEmpty
  | .arr items => !items.isEmpty
  | .obj fields => !fields.isEmpty

/-- One rich-text run contributing to `"".join(...)`:
    `text.get("plain_text", "")` must be a string for the join to succeed;
    a non-dict run raises on `.get`. -/
def runPlainText (run : JVal) : Option String :=
  match run with
  | .obj fields =>
    match (jget fields "plain_text").getD (.str "") with
    | .str s => some s
    | _ => none
  | _ => none

/-- Joins the runs of a rich-text list in order with empty separator. -/
def joinRuns : List JVal → Option String
  | [] => some ""
  | run :: rest => do
    let s ← runPlainText run
    let restS ← joinRuns rest
    pure (s ++ restS)

/-- Python `"".join([text.get("plain_text", "") for text in rich_text])`.
    Iterating an empty string or empty dict yields no runs; iterating any
    other non-list raises on the first element (or a TypeError). -/
def joinPlainText (richText : JVal) : Option String :=
  match richText with
  | .arr runs => joinRuns runs
  | .str "" => some ""
  | .obj [] => some ""
  | _ => none

/-- The shared pattern of the known-type branches:
    `data = block.get(tkey, {}); rich_text = data.get("rich_text", []);`
    `content = "".join(...)`. -/
def richTextContent (block : RawBlock) (typeKey : String) : Option String := do
  let typeData := (jget block typeKey).getD (.obj [])
  let richText ← dictGet typeData "rich_text" (.arr [])
  joinPlainText richText

/-- The dict built by `extract_block_content`. -/
structure Extracted where
  id : JVal
  type : JVal
  created_time : JVal
  last_edited_time : JVal
  content : String
  checked : JVal
  has_children : JVal
  language : Option JVal
  icon : Option JVal
deriving Repr

/-- The fallback scan of the final `else` branch: visit the block fields in
    order; for a dict value containing key "rich_text", join its runs and
    stop only when the joined content is non-empty (`if content:`). -/
def fallbackScan : List (String × JVal) → Option String
  | [] => some ""
  | (_, value) :: rest =>
    match value with
    | .obj fields =>
      if (jget fields "rich_text").isSome then do
        let content ← joinPlainText ((jget fields "rich_text").getD (.arr []))
        if content = "" then fallbackScan rest else pure content
      else fallbackScan rest
    | _ => fallbackScan rest

/-- The function `extract_block_content` of `src/get_standups.py`
    (lines 201-306). -/
def extract_block_content (block : RawBlock) : Option Extracted :=
  let block_type := (jget block "type").getD (.str "unknown")
  let base : Extracted :=
    { id := (jget block "id").getD (.str "")
      type := block_type
      created_time := (jget block "created_time").getD (.str "")
      last_edited_time := (jget block "last_edited_time").getD (.str "")
      content := ""
      checked := .null
      has_children := (jget block "has_children").getD (.bool false)
      language := none
      icon := none }
  if block_type == .str "to_do" then do
    let content ← richTextContent block "to_do"
    let checked ← dictGet ((jget block "to_do").getD (.obj [])) "checked" (.bool false)
    pure { base with content := content, checked := checked }
  else if block_type == .str "paragraph" then do
    let content ← richTextContent block "paragraph"
    pure { base with content := content }
  else if block_type == .str "heading_1" then do
    let content ← richTextContent block "heading_1"
    pure { base with content := content }
  else if block_type == .str "heading_2" then do
    let content ← richTextContent block "heading_2"
    pure { base with content := content }
  else if block_type == .str "heading_3" then do
    let content ← richTextContent block "heading_3"
    pure { base with content := content }
  else if block_type == .str "bulleted_list_item" then do
    let content ← richTextContent block "bulleted_list_item"
    pure { base with content := content }
  else if block_type == .str "numbered_list_item" then do
    let content ← richTextContent block "numbered_list_item"
    pure { base with content := content }
  else if block_type == .str "toggle" then do
    let content ← richTextContent block "toggle"
    pure { base with content := content }
  else if block_type == .str "quote" then do
    let content ← richTextContent block "quote"
    pure { base with content := content }
  else if block_type == .str "code" then do
    let content ← richTextContent block "code"
    let language ← dictGet ((jget block "code").getD (.obj [])) "language" (.str "")
    pure { base with content := content, language := some language }
  else if block_type == .str "callout" then do
    let content ← richTextContent block "callout"
    let icon ← dictGet ((jget block "callout").getD (.obj [])) "icon" (.obj [])
    pure { base with content := content, icon := some icon }
  else do
    let content ← fallbackScan block
    pure { base with content := content }

/-! ## Paginated page query (`fetch_done_pages`) -/

/-- One transport response in the cursor chain of a paginated query:
    either a decoded body (its `results` and `has_more` fields) or a
    failed request. -/
inductive QResp where
  | ok (results : List RawBlock) (hasMore : Bool)
  | fail
deriving Repr

/-- The while-loop of `fetch_done_pages` (lines 51-88): consume responses
    in order, extend the accumulator with each `results`, continue only
    while `has_more` is true; a failed request calls `sys.exit(1)`,
    modelled by `Except.error`. -/
def fetchLoop : List QResp → List RawBlock → Except Unit (List RawBlock)
  | [], acc => Except.ok acc
  | QResp.fail :: _, _ => Except.error ()
  | QResp.ok results hasMore :: rest, acc =>
    if hasMore then fetchLoop rest (acc ++ results) else Except.ok (acc ++ results)

/-- The function `fetch_done_pages` (lines 38-88) run against a cursor
    chain. -/
def fetch_done_pages (chain : List QResp) : Except Unit (List RawBlock) :=
  fetchLoop chain []

/-- The request body built at each iteration of `fetch_done_pages`
    (lines 53-63): the constant Status-equals-"Done" filter, plus the
    continuation cursor from the second call onward. -/
def fetch_request_body (start_cursor : Option String) : RawBlock :=
  [("filter", .obj [("property", .str "Status"),
                    ("status", .obj [("equals", .str "Done")])])]
  ++ (match start_cursor with
      | some c => [("start_cursor", .str c)]
      | none => [])

/-! ## Recursive block fetch (`get_all_blocks_recursive`) -/

/-- The remote block store under one node: the node's raw block, the
    cursor chain of children responses (each inner list is one response's
    `results`, in order), and whether the chain ends with a failed request
    (`true`: the next request raises and the loop breaks) instead of a
    final `has_more = false` response. -/
inductive BTree where
  | mk : RawBlock → List (List BTree) → Bool → BTree

def BTree.blk : BTree → RawBlock
  | .mk b _ _ => b

def BTree.pages : BTree → List (List BTree)
  | .mk _ ps _ => ps

def BTree.failTail : BTree → Bool
  | .mk _ _ f => f

/-- The `has_children` test used by the recursion (line 186):
    `block.get("has_children", False)` under Python truthiness. -/
def hasChildrenFlag (b : RawBlock) : Bool :=
  truthy ((jget b "has_children").getD (.bool false))

mutual
/-- The function `get_all_blocks_recursive` (lines 154-199) applied to
    the node id of
    `t`: process every served response page in order; a trailing request
    failure only breaks the while-loop, keeping everything already
    gathered. -/
def get_all_blocks_recursive : BTree → List RawBlock
  | .mk _ pages _ => blocksOfPages pages

/-- The outer while-loop over the served response pages. -/
def blocksOfPages : List (List BTree) → List RawBlock
  | [] => []
  | page :: rest => blocksOfPage page ++ blocksOfPages rest

/-- The `for block in blocks` body (lines 182-188): append the block,
    then splice its recursive flattening exactly when its
    `has_children` field is truthy. -/
def blocksOfPage : List BTree → List RawBlock
  | [] => []
  | t :: ts =>
    (t.blk :: (if hasChildrenFlag t.blk then get_all_blocks_recursive t else []))
    ++ blocksOfPage ts
end

mutual
/-- All raw blocks strictly below a node, in pre-order
    (children in served order, a node before its sub-tree). -/
def preBelow : BTree → List RawBlock
  | .mk _ pages _ => prePages pages

def prePages : List (List BTree) → List RawBlock
  | [] => []
  | page :: rest => prePage page ++ prePages rest

def prePage : List BTree → List RawBlock
  | [] => []
  | t :: ts => (t.blk :: preBelow t) ++ prePage ts
end

mutual
/-- Number of nodes strictly below a node. -/
def countBelow : BTree → Nat
  | .mk _ pages _ => countPages pages

def countPages : List (List BTree) → Nat
  | [] => 0
  | page :: rest => countPage page + countPages rest

def countPage : List BTree → Nat
  | [] => 0
  | t :: ts => (1 + countBelow t) + countPage ts
end

mutual
/-- Accurate `has_children` flags: whenever a node's flag is falsy the
    store serves it no children, recursively. -/
def goodFlags : BTree → Bool
  | .mk b pages _ =>
    (hasChildrenFlag b || pages.all (fun page => page.isEmpty)) && goodPages pages

def goodPages : List (List BTree) → Bool
  | [] => true
  | page :: rest => goodPage page && goodPages rest

def goodPage : List BTree → Bool
  | [] => true
  | t :: ts => goodFlags t && goodPage ts
end

/-! ## Page-level extraction -/

/-- The "title" extraction shared by `extract_page_properties`
    (lines 329-332) and `extract_simple_content` (lines 442-445):
    `title_array[0].get("plain_text", "") if title_array else ""`,
    guarded by `name_prop.get("type") == "title"`. -/
def titleFromProp (name_prop : JVal) : Option JVal := do
  let tpe ← dictGet name_prop "type" .null
  if tpe == JVal.str "title" then
    let title_array ← dictGet name_prop "title" (.arr [])
    if truthy title_array then
      match title_array with
      | .arr (first :: _) => dictGet first "plain_text" (.str "")
      | _ => none
    else pure (.str "")
  else pure (.str "")

/-- The "projectName" extraction shared by `extract_page_properties`
    (lines 335-338) and `extract_simple_content` (lines 448-451). -/
def projectFromProp (project_prop : JVal) : Option JVal := do
  let tpe ← dictGet project_prop "type" .null
  if tpe == JVal.str "select" then
    let select_obj ← dictGet project_prop "select" .null
    if truthy select_obj then dictGet select_obj "name" (.str "")
    else pure (.str "")
  else pure (.str "")

structure PageProps where
  id : JVal
  title : JVal
  projectName : JVal
deriving Repr

/-- The function `extract_page_properties` (lines 308-340). -/
def extract_page_properties (page : RawBlock) : Option PageProps := do
  let properties := (jget page "properties").getD (.obj [])
  let page_id := (jget page "id").getD .null
  let name_prop ← dictGet properties "Name" (.obj [])
  let title ← titleFromProp name_prop
  let project_prop ← dictGet properties "Project" (.obj [])
  let projectName ← projectFromProp project_prop
  pure { id := page_id, title := title, projectName := projectName }

structure SimpleContent where
  id : JVal
  title : JVal
  projectName : JVal
  contents : List String
deriving Repr

/-- The type tags admitted into `contents` (line 466). -/
def substantiveTypes : List String :=
  ["to_do", "bulleted_list_item", "numbered_list_item", "paragraph",
   "heading_1", "heading_2", "heading_3"]

/-- Membership test `block_type in [...]` of line 466. -/
def isSubstantive (blockType : JVal) : Bool :=
  substantiveTypes.any (fun t => blockType == JVal.str t)

/-- The contents loop of `extract_simple_content` (lines 457-467):
    skip blocks with empty content, keep contents of the admitted types,
    in encounter order. -/
def buildContents : List RawBlock → Option (List String)
  | [] => pure []
  | b :: bs => do
    let block_content ← extract_block_content b
    let rest ← buildContents bs
    if block_content.content = "" then pure rest
    else if isSubstantive block_content.type then
      pure (block_content.content :: rest)
    else pure rest

/-- The function `extract_simple_content` (lines 420-469); `store` is
    the remote
    block store rooted at the page's id. -/
def extract_simple_content (page : RawBlock) (store : BTree) :
    Option SimpleContent := do
  let properties := (jget page "properties").getD (.obj [])
  let page_id := (jget page "id").getD .null
  let name_prop ← dictGet properties "Name" (.obj [])
  let title ← titleFromProp name_prop
  let project_prop ← dictGet properties "Project" (.obj [])
  let projectName ← projectFromProp project_prop
  let contents ← if truthy page_id
                 then buildContents (get_all_blocks_recursive store)
                 else pure []
  pure { id := page_id, title := title, projectName := projectName,
         contents := contents }

/-! ## Spec-side definitions and well-formedness predicates -/

/-- The block type tags with a dedicated branch in `extract_block_content`
    (lines 227-294). -/
def knownTypes : List String :=
  ["to_do", "paragraph", "heading_1", "heading_2", "heading_3",
   "bulleted_list_item", "numbered_list_item", "toggle", "quote",
   "code", "callout"]

/-- Does the block type hit one of the dedicated branches? -/
def isKnownType (blockType : JVal) : Bool :=
  knownTypes.any (fun t => blockType == JVal.str t)

/-- A well-formed rich-text run: an object whose "plain_text" field, when
    present, is a string. -/
def wfRun (run : JVal) : Bool :=
  match run with
  | .obj fields =>
    match jget fields "plain_text" with
    | some (.str _) => true
    | some _ => false
    | none => true
  | _ => false

/-- The type-keyed sub-object of a block is well formed: absent, or an
    object whose "rich_text" field, when present, is an array of
    well-formed runs. -/
def wfTypeData (block : RawBlock) (typeKey : String) : Bool :=
  match jget block typeKey with
  | none => true
  | some (.obj fields) =>
    match jget fields "rich_text" with
    | none => true
    | some (.arr runs) => runs.all wfRun
    | some _ => false
  | some _ => false

/-- Spec-side concatenation with empty-string join. -/
def joinAll : List String → String
  | [] => ""
  | s :: rest => s ++ joinAll rest

/-- Spec-side plain text of one run (a missing field reads as ""). -/
def specPlainText (run : JVal) : String :=
  match run with
  | .obj fields =>
    match jget fields "plain_text" with
    | some (.str s) => s
    | _ => ""
  | _ => ""

/-- Spec-side rich-text runs of the type-keyed sub-object of a block. -/
def specRuns (block : RawBlock) (typeKey : String) : List JVal :=
  match jget block typeKey with
  | some (.obj fields) =>
    match jget fields "rich_text" with
    | some (.arr runs) => runs
    | _ => []
  | _ => []

/-- Spec-side content of a known-type block: the concatenation, in array
    order with empty join, of the runs' plain text. -/
def specContent (block : RawBlock) (typeKey : String) : String :=
  joinAll ((specRuns block typeKey).map specPlainText)

/-- Every fallback candidate of a block is safe to scan: dict values
    carrying "rich_text" carry an array of well-formed runs. -/
def wfFallback (block : RawBlock) : Bool :=
  block.all (fun kv =>
    match kv.2 with
    | .obj fields =>
      match jget fields "rich_text" with
      | none => true
      | some (.arr runs) => runs.all wfRun
      | some _ => false
    | _ => true)

/-- Spec-side fallback content: the first field, in enumeration order,
    whose value is an object carrying a rich-text array with non-empty
    joined content; empty content when no such field exists. -/
def specFallback : List (String × JVal) → String
  | [] => ""
  | (_, value) :: rest =>
    match value with
    | .obj fields =>
      match jget fields "rich_text" with
      | some (.arr runs) =>
        let c := joinAll (runs.map specPlainText)
        if c = "" then specFallback rest else c
      | _ => specFallback rest
    | _ => specFallback rest

/-- Modelled from the claim wording for the fallback: use the first
    sub-object containing a "rich_text" key, in enumeration order,
    whatever its joined content. -/
def claimFallbackScan : List (String × JVal) → Option String
  | [] => some ""
  | (_, value) :: rest =>
    match value with
    | .obj fields =>
      if (jget fields "rich_text").isSome then
        joinPlainText ((jget fields "rich_text").getD (.arr []))
      else claimFallbackScan rest
    | _ => claimFallbackScan rest

/-! ## Concrete inputs used by witnesses and counterexamples -/

def paraBlock (s : String) : RawBlock :=
  [("type", .str "paragraph"),
   ("paragraph", .obj [("rich_text", .arr [.obj [("plain_text", .str s)]])])]

/-- A paragraph block with two rich-text runs. -/
def paraTwoRuns (p q : String) : RawBlock :=
  [("type", .str "paragraph"),
   ("paragraph", .obj [("rich_text", .arr
      [.obj [("plain_text", .str p)], .obj [("plain_text", .str q)]])])]

def helloBlock : RawBlock := paraTwoRuns "Hello, " "world"

def todoBlock : RawBlock :=
  [("type", .str "to_do"),
   ("to_do", .obj [("rich_text", .arr [.obj [("plain_text", .str "Fix bug")]]),
                   ("checked", .bool true)])]

def extTodo : Extracted :=
  { id := .str "", type := .str "to_do", created_time := .str "",
    last_edited_time := .str "", content := "Fix bug",
    checked := .bool true, has_children := .bool false,
    language := none, icon := none }

/-- Unknown-type block whose first rich-text carrier joins to "" while a
    later one joins to "x". -/
def fallbackBlock : RawBlock :=
  [("type", .str "mystery"),
   ("alpha", .obj [("rich_text", .arr [])]),
   ("beta", .obj [("rich_text", .arr [.obj [("plain_text", .str "x")]])])]

/-- Unknown-type block whose rich-text carrier holds a non-array value:
    the Python join then iterates a string and raises. -/
def raiseBlock : RawBlock :=
  [("type", .str "mystery"),
   ("x", .obj [("rich_text", .str "oops")])]

def blkA : RawBlock := [("id", .str "A"), ("has_children", .bool true)]
def blkB : RawBlock := [("id", .str "B"), ("has_children", .bool true)]
def blkC : RawBlock := [("id", .str "C")]
def blkD : RawBlock := [("id", .str "D")]
def blkE : RawBlock := [("id", .str "E")]

/-- The tree A[B[C,D],E] of the spec example, served in single pages. -/
def nodeB : BTree := .mk blkB [[.mk blkC [] false, .mk blkD [] false]] false
def nodeA : BTree := .mk blkA [[nodeB, .mk blkE [] false]] false
def pageStore : BTree := .mk [("has_children", .bool true)] [[nodeA]] false

def pageEx : RawBlock :=
  [("id", .str "p1"),
   ("properties", .obj
      [("Name", .obj [("type", .str "title"),
                      ("title", .arr [.obj [("plain_text", .str "Page")]])]),
       ("Project", .obj [("type", .str "select"),
                         ("select", .obj [("name", .str "Proj")])])])]

def emptyPara : RawBlock :=
  [("type", .str "paragraph"), ("paragraph", .obj [("rich_text", .arr [])])]

def storeEx : BTree :=
  .mk pageEx [[.mk (paraBlock "hi") [] false, .mk emptyPara [] false]] false

/-- A page whose "Name" title array starts with a run of plain text `p`
    followed by arbitrary further runs. -/
def titlePage (pid : JVal) (p : String) (restRuns : List JVal) : RawBlock :=
  [("id", pid),
   ("properties", .obj
      [("Name", .obj [("type", .str "title"),
                      ("title", .arr (.obj [("plain_text", .str p)] :: restRuns))])])]

/-- A page whose "Name" title array is empty. -/
def emptyTitlePage (pid : JVal) : RawBlock :=
  [("id", pid),
   ("properties", .obj
      [("Name", .obj [("type", .str "title"), ("title", .arr [])])])]

/-- The `SimpleContent` extracted from `pageEx` over `storeEx`. -/
def simpleEx : SimpleContent :=
  { id := .str "p1", title := .str "Page", projectName := .str "Proj",
    contents := ["hi"] }

/-! ## Theorems -/

theorem jval_beq_str_iff (v : JVal) (s : String) :
    (v == JVal.str s) = true ↔ v = JVal.str s := by
  show JVal.beq v (.str s) = true ↔ v = .str s
  cases v <;> simp [JVal.beq]

theorem fetchLoop_ok_chain (pre : List (List RawBlock)) (lastR : List RawBlock)
    (rest : List QResp) (acc : List RawBlock) :
    fetchLoop (pre.map (fun rs => QResp.ok rs true) ++ QResp.ok lastR false :: rest) acc
      = Except.ok (acc ++ pre.flatten ++ lastR) := by
  induction pre generalizing acc with
  | nil => simp [fetchLoop]
  | cons r rs ih => simp [fetchLoop, ih, List.append_assoc]

theorem fetchLoop_fail_chain (pre : List (List RawBlock)) (rest : List QResp)
    (acc : List RawBlock) :
    fetchLoop (pre.map (fun rs => QResp.ok rs true) ++ QResp.fail :: rest) acc
      = Except.error () := by
  induction pre generalizing acc with
  | nil => simp [fetchLoop]
  | cons r rs ih => simp [fetchLoop, ih]

/-- C1: over any cursor chain whose responses all report `has_more = true`
    until a final response reports `has_more = false`, `fetch_done_pages`
    returns exactly the concatenation of the `results` arrays in response
    order (no re-sorting, no drops, no duplicates), and the loop stops at
    that final response: responses beyond it are never consumed. -/
theorem fetch_done_pages_exact_concat (pre : List (List RawBlock))
    (lastR : List RawBlock) (rest : List QResp) :
    fetch_done_pages (pre.map (fun rs => QResp.ok rs true)
        ++ QResp.ok lastR false :: rest)
      = Except.ok (pre.flatten ++ lastR) := by
  simpa using fetchLoop_ok_chain pre lastR rest []

/-- C5: a transport failure at any point of the cursor chain makes
    `fetch_done_pages` abort (`sys.exit(1)`, modelled `Except.error`):
    no partial page list is ever returned. -/
theorem fetch_done_pages_aborts_on_failure (pre : List (List RawBlock))
    (rest : List QResp) :
    fetch_done_pages (pre.map (fun rs => QResp.ok rs true) ++ QResp.fail :: rest)
      = Except.error () := by
  simpa using fetchLoop_fail_chain pre rest []

/-- C7 counterexample: the request body of the first query of
    `fetch_done_pages` carries no "sorts" key at all — its only key is
    "filter" — refuting the claim that every request carries a constant
    most-recently-edited-first sort. -/
theorem fetch_request_body_no_sorts :
    jget (fetch_request_body none) "sorts" = none ∧
    (fetch_request_body none).map Prod.fst = ["filter"] := ⟨rfl, rfl⟩

/-- C7 amended: every query request issued by `fetch_done_pages` carries
    the constant filter (property "Status" equals the literal "Done") and,
    from the second call onward, the continuation cursor; no sort is part
    of any request. -/
theorem fetch_request_body_filter_no_sort (c : Option String) :
    jget (fetch_request_body c) "filter"
      = some (.obj [("property", .str "Status"),
                    ("status", .obj [("equals", .str "Done")])]) ∧
    jget (fetch_request_body c) "sorts" = none ∧
    jget (fetch_request_body c) "start_cursor" = c.map JVal.str := by
  cases c <;> exact ⟨rfl, rfl, rfl⟩

theorem blocksOfPage_append (xs ys : List BTree) :
    blocksOfPage (xs ++ ys) = blocksOfPage xs ++ blocksOfPage ys := by
  induction xs with
  | nil => simp [blocksOfPage]
  | cons t ts ih => simp [blocksOfPage, ih]

theorem prePages_of_all_empty (ps : List (List BTree))
    (h : ps.all (fun page => page.isEmpty) = true) : prePages ps = [] := by
  induction ps with
  | nil => rfl
  | cons page rest ih =>
    simp only [List.all_cons, Bool.and_eq_true] at h
    obtain ⟨h1, h2⟩ := h
    have hpage : page = [] := by
      cases page with
      | nil => rfl
      | cons a as => simp at h1
    subst hpage
    simp [prePages, prePage, ih h2]

theorem preBelow_eq_nil_of_no_flag (t : BTree) (hg : goodFlags t = true)
    (hf : hasChildrenFlag t.blk = false) : preBelow t = [] := by
  cases t with
  | mk b ps f =>
    simp only [goodFlags, Bool.and_eq_true, Bool.or_eq_true] at hg
    simp only [BTree.blk] at hf
    rcases hg with ⟨h1 | h1, _⟩
    · rw [hf] at h1; exact absurd h1 (by simp)
    · simpa [preBelow] using prePages_of_all_empty ps h1

theorem blocks_eq_pre :
    (∀ t, goodFlags t = true → get_all_blocks_recursive t = preBelow t) ∧
    (∀ ps, goodPages ps = true → blocksOfPages ps = prePages ps) ∧
    (∀ page, goodPage page = true → blocksOfPage page = prePage page) := by
  refine get_all_blocks_recursive.mutual_induct
    (fun t => goodFlags t = true → get_all_blocks_recursive t = preBelow t)
    (fun ps => goodPages ps = true → blocksOfPages ps = prePages ps)
    (fun page => goodPage page = true → blocksOfPage page = prePage page)
    ?_ ?_ ?_ ?_ ?_
  · intro b pages f ih hg
    simp only [goodFlags, Bool.and_eq_true] at hg
    simpa [get_all_blocks_recursive, preBelow] using ih hg.2
  · intro _
    simp [blocksOfPages, prePages]
  · intro page rest ih1 ih2 hg
    simp only [goodPages, Bool.and_eq_true] at hg
    simp [blocksOfPages, prePages, ih1 hg.1, ih2 hg.2]
  · intro _
    simp [blocksOfPage, prePage]
  · intro t ts ih1 ih2 hg
    simp only [goodPage, Bool.and_eq_true] at hg
    by_cases hf : hasChildrenFlag t.blk = true
    · simp [blocksOfPage, prePage, hf, ih1 hg.1, ih2 hg.2]
    · have hf0 : hasChildrenFlag t.blk = false := by
        simpa using hf
      simp [blocksOfPage, prePage, hf0, ih2 hg.2,
        preBelow_eq_nil_of_no_flag t hg.1 hf0]

theorem pre_length_eq_count :
    (∀ t, (preBelow t).length = countBelow t) ∧
    (∀ ps, (prePages ps).length = countPages ps) ∧
    (∀ page, (prePage page).length = countPage page) := by
  refine preBelow.mutual_induct
    (fun t => (preBelow t).length = countBelow t)
    (fun ps => (prePages ps).length = countPages ps)
    (fun page => (prePage page).length = countPage page)
    ?_ ?_ ?_ ?_ ?_
  · intro b pages f ih
    simpa [preBelow, countBelow] using ih
  · simp [prePages, countPages]
  · intro page rest ih1 ih2
    simp [prePages, countPages, ih1, ih2]
  · simp [prePage, countPage]
  · intro t ts ih1 ih2
    simp [prePage, countPage, ih1, ih2]
    omega

/-- C2: with accurate `has_children` flags, `get_all_blocks_recursive`
    returns exactly the pre-order flattening of the block tree — each
    child appended before its recursively spliced sub-tree, siblings in
    served order — and its length is the total node count of the tree. -/
theorem get_all_blocks_recursive_preorder (t : BTree) (h : goodFlags t = true) :
    get_all_blocks_recursive t = preBelow t ∧
    (get_all_blocks_recursive t).length = countBelow t := by
  have h1 := blocks_eq_pre.1 t h
  exact ⟨h1, by rw [h1]; exact pre_length_eq_count.1 t⟩

/-- C4: a children-fetch failure at one node (its cursor chain ends in a
    failed request after serving `ps`) keeps the partial result below it,
    does not propagate, and leaves every sibling's full sub-tree
    unaffected; a node that served no pages contributes like a childless
    node. -/
theorem get_all_blocks_recursive_failure_isolated (xs ys : List BTree)
    (b : RawBlock) (ps : List (List BTree)) (f : Bool) :
    blocksOfPage (xs ++ BTree.mk b ps f :: ys)
      = blocksOfPage xs
        ++ (b :: (if hasChildrenFlag b then blocksOfPages ps else []))
        ++ blocksOfPage ys ∧
    get_all_blocks_recursive (BTree.mk b ps true)
      = get_all_blocks_recursive (BTree.mk b ps false) := by
  constructor
  · rw [blocksOfPage_append]
    simp [blocksOfPage, get_all_blocks_recursive, BTree.blk, List.append_assoc]
  · simp [get_all_blocks_recursive]

/-- C2 witness: the spec example A[B[C,D],E] (accurate flags) flattens to
    [A,B,C,D,E], whose length is the node count 5. -/
theorem get_all_blocks_recursive_preorder_witness :
    goodFlags pageStore = true ∧
    get_all_blocks_recursive pageStore = [blkA, blkB, blkC, blkD, blkE] ∧
    (get_all_blocks_recursive pageStore).length = countBelow pageStore :=
  ⟨rfl, ((get_all_blocks_recursive_preorder pageStore rfl).1).trans rfl,
   (get_all_blocks_recursive_preorder pageStore rfl).2⟩

theorem runPlainText_of_wf (run : JVal) (h : wfRun run = true) :
    runPlainText run = some (specPlainText run) := by
  cases run with
  | obj fields =>
    simp only [wfRun] at h
    simp only [runPlainText, specPlainText]
    rcases hp : jget fields "plain_text" with _ | v
    · simp [hp]
    · rw [hp] at h
      cases v <;> simp_all
  | null => simp [wfRun] at h
  | bool b => simp [wfRun] at h
  | num n => simp [wfRun] at h
  | str s => simp [wfRun] at h
  | arr xs => simp [wfRun] at h

theorem joinRuns_of_wf (runs : List JVal) (h : runs.all wfRun = true) :
    joinRuns runs = some (joinAll (runs.map specPlainText)) := by
  induction runs with
  | nil => rfl
  | cons r rs ih =>
    simp only [List.all_cons, Bool.and_eq_true] at h
    simp [joinRuns, runPlainText_of_wf r h.1, ih h.2, joinAll]

theorem wfTypeData_cases (block : RawBlock) (tkey : String)
    (h : wfTypeData block tkey = true) :
    jget block tkey = none ∨
    ∃ fields, jget block tkey = some (.obj fields) ∧
      (jget fields "rich_text" = none ∨
       ∃ runs, jget fields "rich_text" = some (.arr runs) ∧
         runs.all wfRun = true) := by
  unfold wfTypeData at h
  rcases ht : jget block tkey with _ | v
  · exact Or.inl rfl
  · rw [ht] at h
    cases v with
    | obj fields =>
      simp only [] at h
      refine Or.inr ⟨fields, rfl, ?_⟩
      rcases hr : jget fields "rich_text" with _ | w
      · exact Or.inl rfl
      · rw [hr] at h
        cases w with
        | arr runs => exact Or.inr ⟨runs, rfl, h⟩
        | null => exact absurd h (by simp)
        | bool b => exact absurd h (by simp)
        | num n => exact absurd h (by simp)
        | str s => exact absurd h (by simp)
        | obj fs => exact absurd h (by simp)
    | null => exact absurd h (by simp)
    | bool b => exact absurd h (by simp)
    | num n => exact absurd h (by simp)
    | str s => exact absurd h (by simp)
    | arr xs => exact absurd h (by simp)

theorem richTextContent_of_wf (block : RawBlock) (tkey : String)
    (h : wfTypeData block tkey = true) :
    richTextContent block tkey = some (specContent block tkey) := by
  rcases wfTypeData_cases block tkey h with ht | ⟨fields, ht, hr | ⟨runs, hr, hruns⟩⟩
  · simp only [richTextContent, specContent, specRuns, ht]
    simp [dictGet, jget, joinPlainText, joinRuns, joinAll]
  · simp only [richTextContent, specContent, specRuns, ht]
    simp [dictGet, hr, joinPlainText, joinRuns, joinAll]
  · simp only [richTextContent, specContent, specRuns, ht]
    simp [dictGet, hr, joinPlainText, joinRuns_of_wf runs hruns]

theorem wfTypeData_dictGet (block : RawBlock) (tkey extraKey : String)
    (dflt : JVal) (h : wfTypeData block tkey = true) :
    ∃ v, dictGet ((jget block tkey).getD (.obj [])) extraKey dflt = some v := by
  rcases wfTypeData_cases block tkey h with ht | ⟨fields, ht, _⟩
  · exact ⟨_, by rw [ht]; rfl⟩
  · exact ⟨_, by rw [ht]; rfl⟩

theorem extract_known (block : RawBlock) (tkey : String)
    (hmem : tkey ∈ knownTypes)
    (htype : jget block "type" = some (.str tkey))
    (hwf : wfTypeData block tkey = true) :
    ∃ ext, extract_block_content block = some ext ∧
      ext.content = specContent block tkey := by
  have hrtc := richTextContent_of_wf block tkey hwf
  fin_cases hmem
  · obtain ⟨ck, hck⟩ := wfTypeData_dictGet block "to_do" "checked" (.bool false) hwf
    exact ⟨_, by simp [extract_block_content, htype, hrtc, hck, jval_beq_str_iff]; all_goals rfl, rfl⟩
  · exact ⟨_, by simp [extract_block_content, htype, hrtc, jval_beq_str_iff]; all_goals rfl, rfl⟩
  · exact ⟨_, by simp [extract_block_content, htype, hrtc, jval_beq_str_iff]; all_goals rfl, rfl⟩
  · exact ⟨_, by simp [extract_block_content, htype, hrtc, jval_beq_str_iff]; all_goals rfl, rfl⟩
  · exact ⟨_, by simp [extract_block_content, htype, hrtc, jval_beq_str_iff]; all_goals rfl, rfl⟩
  · exact ⟨_, by simp [extract_block_content, htype, hrtc, jval_beq_str_iff]; all_goals rfl, rfl⟩
  · exact ⟨_, by simp [extract_block_content, htype, hrtc, jval_beq_str_iff]; all_goals rfl, rfl⟩
  · exact ⟨_, by simp [extract_block_content, htype, hrtc, jval_beq_str_iff]; all_goals rfl, rfl⟩
  · exact ⟨_, by simp [extract_block_content, htype, hrtc, jval_beq_str_iff]; all_goals rfl, rfl⟩
  · obtain ⟨lg, hlg⟩ := wfTypeData_dictGet block "code" "language" (.str "") hwf
    exact ⟨_, by simp [extract_block_content, htype, hrtc, hlg, jval_beq_str_iff]; all_goals rfl, rfl⟩
  · obtain ⟨ic, hic⟩ := wfTypeData_dictGet block "callout" "icon" (.obj []) hwf
    exact ⟨_, by simp [extract_block_content, htype, hrtc, hic, jval_beq_str_iff]; all_goals rfl, rfl⟩

/-- C3: on any block of a known type whose type-keyed sub-object is well
    formed, `extract_block_content` succeeds (never raises) and the
    extracted content is the concatenation, in array order with
    empty-string join, of the plain_text fields of the rich-text runs of
    the type-keyed sub-object. -/
theorem extract_block_content_known_total (block : RawBlock) (tkey : String)
    (hmem : tkey ∈ knownTypes)
    (htype : jget block "type" = some (.str tkey))
    (hwf : wfTypeData block tkey = true) :
    ∃ ext, extract_block_content block = some ext ∧
      ext.content = specContent block tkey :=
  extract_known block tkey hmem htype hwf

/-- C3 witness: the spec example — a paragraph with runs "Hello, " and
    "world" extracts to content "Hello, world". -/
theorem extract_block_content_known_total_witness :
    (∃ ext, extract_block_content helloBlock = some ext ∧
      ext.content = specContent helloBlock "paragraph") ∧
    specContent helloBlock "paragraph" = "Hello, world" :=
  ⟨extract_block_content_known_total helloBlock "paragraph" (by decide) rfl rfl,
   rfl⟩

/-- C8 counterexample: on `fallbackBlock` — an unknown-type block whose
    first rich-text carrier (key "alpha") joins to "" and whose later one
    (key "beta") joins to "x" — the extractor returns content "x", while
    the claimed first-match-in-enumeration-order rule yields ""; moreover
    on `raiseBlock` (rich_text holds a string) the extractor raises
    (`none`), refuting "never raises" on arbitrary unknown blocks. -/
theorem fallback_not_first_match :
    ((extract_block_content fallbackBlock).map (fun e => e.content) = some "x" ∧
     claimFallbackScan fallbackBlock = some "") ∧
    extract_block_content raiseBlock = none := ⟨⟨rfl, rfl⟩, rfl⟩

theorem fallbackScan_of_wf (fields : List (String × JVal))
    (h : wfFallback fields = true) :
    fallbackScan fields = some (specFallback fields) := by
  induction fields with
  | nil => rfl
  | cons kv rest ih =>
    simp only [wfFallback, List.all_cons, Bool.and_eq_true] at h
    obtain ⟨h1, h2⟩ := h
    have ih2 : fallbackScan rest = some (specFallback rest) := ih h2
    obtain ⟨k, v⟩ := kv
    cases v with
    | obj fs =>
      simp only [] at h1
      rcases hr : jget fs "rich_text" with _ | w
      · simp [fallbackScan, specFallback, hr, ih2]
      · rw [hr] at h1
        cases w with
        | arr runs =>
          simp only [] at h1
          simp only [fallbackScan, specFallback, hr, Option.isSome_some,
            if_true, joinPlainText, Option.getD_some]
          rw [joinRuns_of_wf runs h1]
          by_cases hc : joinAll (runs.map specPlainText) = ""
          · simp [hc, ih2]
          · simp [hc]
        | null => exact absurd h1 (by simp)
        | bool b => exact absurd h1 (by simp)
        | num n => exact absurd h1 (by simp)
        | str s => exact absurd h1 (by simp)
        | obj fs2 => exact absurd h1 (by simp)
    | null => simp [fallbackScan, specFallback, ih2]
    | bool b => simp [fallbackScan, specFallback, ih2]
    | num n => simp [fallbackScan, specFallback, ih2]
    | str s => simp [fallbackScan, specFallback, ih2]
    | arr xs => simp [fallbackScan, specFallback, ih2]

/-- C8 amended: on a block whose type is none of the known kinds and whose
    fallback candidates are well formed, `extract_block_content` never
    raises: it scans the block's keys in enumeration order and uses the
    first sub-object rich-text match whose joined content is non-empty,
    emitting empty content when no match joins to non-empty content. -/
theorem extract_block_content_fallback (block : RawBlock)
    (hunk : isKnownType ((jget block "type").getD (.str "unknown")) = false)
    (hwf : wfFallback block = true) :
    ∃ ext, extract_block_content block = some ext ∧
      ext.content = specFallback block := by
  have hscan := fallbackScan_of_wf block hwf
  simp only [isKnownType, knownTypes, List.any_cons, List.any_nil,
    Bool.or_eq_false_iff] at hunk
  obtain ⟨h1, h2, h3, h4, h5, h6, h7, h8, h9, h10, h11, -⟩ := hunk
  exact ⟨_, by simp [extract_block_content, h1, h2, h3, h4, h5, h6, h7, h8,
    h9, h10, h11, hscan]; all_goals rfl, rfl⟩

/-- C8 witness: on `fallbackBlock` the amended rule applies: no known
    type, well-formed candidates, and the extracted content is "x". -/
theorem extract_block_content_fallback_witness :
    (∃ ext, extract_block_content fallbackBlock = some ext ∧
      ext.content = specFallback fallbackBlock) ∧
    specFallback fallbackBlock = "x" :=
  ⟨extract_block_content_fallback fallbackBlock rfl rfl, rfl⟩

/-- C6 counterexample: the contents filter admits seven pairwise-distinct
    type tags, so no set of six block types characterizes it. -/
theorem substantive_types_not_six :
    ¬ ∃ S : List String, S.length = 6 ∧
      (∀ t : String, isSubstantive (.str t) = true ↔ t ∈ S) := by
  rintro ⟨S, hlen, hiff⟩
  have hsub : ∀ t ∈ substantiveTypes, t ∈ S := by
    intro t ht
    refine (hiff t).mp ?_
    simp only [isSubstantive, List.any_eq_true]
    exact ⟨t, ht, (jval_beq_str_iff (.str t) t).mpr rfl⟩
  have h1 : substantiveTypes.toFinset ⊆ S.toFinset := by
    intro x hx
    rw [List.mem_toFinset] at hx ⊢
    exact hsub x hx
  have h2 : substantiveTypes.toFinset.card = 7 := by decide
  have h3 : substantiveTypes.toFinset.card ≤ S.toFinset.card :=
    Finset.card_le_card h1
  have h4 : S.toFinset.card ≤ S.length := S.toFinset_card_le
  omega

/-- C6 amended: the contents filter admits exactly the seven type tags
    to_do, bulleted_list_item, numbered_list_item, paragraph, heading_1,
    heading_2 and heading_3: a processed block's content is appended iff
    it is non-empty and its type is one of those seven; every other type
    is discarded. -/
theorem buildContents_seven_types :
    (∀ (b : RawBlock) (bs : List RawBlock) (ext : Extracted)
        (rest : List String),
      extract_block_content b = some ext → buildContents bs = some rest →
      buildContents (b :: bs)
        = some (if ext.content ≠ "" ∧ isSubstantive ext.type = true
                then ext.content :: rest else rest)) ∧
    (∀ v : JVal, isSubstantive v = true ↔ v ∈ substantiveTypes.map JVal.str) := by
  constructor
  · intro b bs ext rest hb hrest
    simp only [buildContents, hb, hrest, Option.some_bind]
    by_cases hc : ext.content = ""
    · simp [hc]
    · by_cases hs : isSubstantive ext.type = true
      · simp [hc, hs]
      · simp [hc, hs]
  · intro v
    simp only [isSubstantive, List.any_eq_true, jval_beq_str_iff, List.mem_map]
    constructor
    · rintro ⟨u, hu, hv⟩
      exact ⟨u, hu, hv.symm⟩
    · rintro ⟨u, hu, hv⟩
      exact ⟨u, hu, hv.symm⟩

/-- C6 witness: the spec example to_do block passes the filter; its
    checked flag is dropped and the plain content "Fix bug" is kept. -/
theorem buildContents_seven_types_witness :
    buildContents [todoBlock] = some ["Fix bug"] := by
  have h := buildContents_seven_types.1 todoBlock [] extTodo [] rfl rfl
  rw [h, if_pos ⟨(by decide : extTodo.content ≠ ""),
    (rfl : isSubstantive extTodo.type = true)⟩]
  rfl

theorem buildContents_no_empty (bs : List RawBlock) (l : List String)
    (h : buildContents bs = some l) : "" ∉ l := by
  induction bs generalizing l with
  | nil =>
    simp only [buildContents, Option.pure_def, Option.some.injEq] at h
    subst h
    simp
  | cons b bs0 ih =>
    simp only [buildContents, Option.bind_eq_bind, Option.bind_eq_some,
      Option.pure_def, Option.some.injEq] at h
    obtain ⟨ext, hb, r0, hr, hif⟩ := h
    by_cases hc : ext.content = ""
    · rw [if_pos hc] at hif
      injection hif with hif
      subst hif
      exact ih r0 hr
    · rw [if_neg hc] at hif
      by_cases hs : isSubstantive ext.type = true
      · rw [if_pos hs] at hif
        injection hif with hif
        subst hif
        simp only [List.mem_cons, not_or]
        exact ⟨fun contra => hc contra.symm, ih r0 hr⟩
      · rw [if_neg hs] at hif
        injection hif with hif
        subst hif
        exact ih r0 hr

/-- C9: the `contents` of a `SimpleContent` produced by
    `extract_simple_content` never contain an empty string (blocks whose
    content is empty are skipped by `if not content: continue`), and a
    known-type block whose rich-text array is empty or absent extracts to
    content "". -/
theorem contents_never_empty :
    (∀ (page : RawBlock) (store : BTree) (e : SimpleContent),
      extract_simple_content page store = some e → "" ∉ e.contents) ∧
    (∀ (block : RawBlock) (tkey : String), tkey ∈ knownTypes →
      jget block "type" = some (.str tkey) → wfTypeData block tkey = true →
      specRuns block tkey = [] →
      ∃ ext, extract_block_content block = some ext ∧ ext.content = "") := by
  constructor
  · intro page store e h
    simp only [extract_simple_content, Option.bind_eq_bind,
      Option.bind_eq_some, Option.pure_def, Option.some.injEq] at h
    obtain ⟨np, hnp, title, htitle, pp, hpp, pn, hpn, hif⟩ := h
    split at hif
    · simp only [Option.bind_eq_some, Option.some.injEq] at hif
      obtain ⟨cs, hcs, he⟩ := hif
      subst he
      exact buildContents_no_empty _ _ hcs
    · simp only [Option.some_bind, Option.some.injEq] at hif
      subst hif
      simp
  · intro block tkey hmem htype hwf hruns
    obtain ⟨ext, hext, hc⟩ := extract_known block tkey hmem htype hwf
    refine ⟨ext, hext, ?_⟩
    rw [hc]
    simp [specContent, hruns, joinAll]

/-- C9 witness: on `pageEx` over `storeEx` (one paragraph "hi", one
    paragraph with an empty rich-text array) the contents are exactly
    ["hi"] and contain no empty string. -/
theorem contents_never_empty_witness :
    extract_simple_content pageEx storeEx = some simpleEx ∧
    "" ∉ simpleEx.contents :=
  ⟨rfl, contents_never_empty.1 pageEx storeEx simpleEx rfl⟩

/-- C10: the extracted page title is the plain_text of only the first run
    of the "Name" title array — later runs are silently discarded, both
    in `extract_page_properties` and in the `extract_simple_content`
    pipeline — and it is "" when the title array is empty; block content,
    by contrast, concatenates all runs. -/
theorem title_uses_first_run_only (pid : JVal) (p q : String)
    (restRuns : List JVal) :
    extract_page_properties (titlePage pid p restRuns)
      = some { id := pid, title := .str p, projectName := .str "" } ∧
    extract_simple_content (titlePage (.str "pg") p restRuns)
        (BTree.mk [] [] false)
      = some { id := .str "pg", title := .str p, projectName := .str "",
               contents := [] } ∧
    extract_page_properties (emptyTitlePage pid)
      = some { id := pid, title := .str "", projectName := .str "" } ∧
    (extract_block_content (paraTwoRuns p q)).map (fun e => e.content)
      = some (p ++ q) := by
  refine ⟨rfl, rfl, rfl, ?_⟩
  have h : (extract_block_content (paraTwoRuns p q)).map (fun e => e.content)
      = some (p ++ (q ++ "")) := rfl
  rw [h]
  simp
